import Mathlib

/-!
# GeeCache: a shallow embedding of the cache group, the registry and the HTTP pool

The development follows the Go sources

* `byteview/byteview.go`      (the immutable byte view),
* `geecache/cache/cache.go`   (the locked wrapper around the LRU),
* `geecache/group/group.go`   (groups, the registry of groups, `Group.Get`),
* `geecache/http/http.go`     (the HTTP pool: server side, client side, peer picking).

Stateful code is written in state-passing style.  The packages `GeeCache/lru` and the
consistent-hash `Map` of package `http` are used by these files but are not part of the
sources at hand; they are modelled from the written specification and marked as such.
-/

set_option autoImplicit false

namespace GeeCache

/-! ## Go strings and byte slices -/

/-- A byte. -/
abbrev Byte := Fin 256

/-- A Go `string` is an immutable sequence of bytes; `len` is `List.length`. -/
abbrev GoString := List Byte

/-- A Go `[]byte`, by its content; the `nil` slice and the empty slice are both `[]`.
Which backing array a slice shares with which other slice is not represented: a write
through one slice that shows in another cannot be expressed. -/
abbrev Bytes := List Byte

/-- The byte of an ASCII character. -/
def ch (c : Char) : Byte := Fin.ofNat c.toNat

/-- The Go string written by an ASCII literal. -/
def str (s : String) : GoString := s.toList.map ch

deriving instance DecidableEq for Except

/-- A Go `error` value, given by its text (`err.Error()`). -/
structure GoError where
  text : GoString
deriving DecidableEq, Repr

/-- Go `fmt.Errorf` applied to a text without further formatting verbs. -/
def Errorf (text : GoString) : GoError := ⟨text⟩

/-! ## `byteview/byteview.go` -/

/-- Go `byteview.ByteView`: holds an immutable view of bytes. -/
structure ByteView where
  B : Bytes
deriving DecidableEq, Repr

/-- Go `cloneBytes`: a copy of the bytes. -/
def cloneBytes (b : Bytes) : Bytes := b.map id

/-- Go `ByteView.Len`. -/
def ByteView.Len (v : ByteView) : Int := v.B.length

/-- Go `ByteView.ByteSlice`: a copy of the data as a byte slice. -/
def ByteView.ByteSlice (v : ByteView) : Bytes := cloneBytes v.B

/-- Go `ByteView.String`. -/
def ByteView.String (v : ByteView) : GoString := v.B

/-! ## Package `lru` (not among the sources; modelled from the specification) -/

namespace lru

/-- Modelled from the spec: the package `GeeCache/lru` is missing.  A cache entry is a key
with its value (section 3, "Cache Entry"). -/
structure entry where
  key : GoString
  value : ByteView
deriving DecidableEq, Repr

/-- Modelled from the spec: the package `GeeCache/lru` is missing.  The eviction cache owns
the entries in recency order (most recently used first) and a capacity in bytes fixed at
creation (section 3, "Eviction Cache"). -/
structure Cache where
  maxBytes : Int
  ll : List entry
deriving DecidableEq, Repr

/-- Modelled from the spec: the package `GeeCache/lru` is missing.  The "byte-size cost" of
an entry (section 3); the spec gives no formula, the length of the key plus the length of
the value is taken. -/
def entry.cost (e : entry) : Int := (e.key.length : Int) + e.value.Len

/-- Modelled from the spec: the package `GeeCache/lru` is missing.  The sum of the entry
costs. -/
def nbytes (l : List entry) : Int := (l.map entry.cost).sum

/-- Modelled from the spec: the package `GeeCache/lru` is missing.  `lru.New`: an empty
cache of the given capacity (the second argument of the Go call, always `nil`, is not
described by the spec and is dropped). -/
def New (maxBytes : Int) : Cache := ⟨maxBytes, []⟩

/-- Modelled from the spec: the package `GeeCache/lru` is missing.  Eviction on the entries
listed least recently used first: "evicting least-recently-used entries (in strict LRU
order, one at a time) until total cost fits capacity - even for a single oversized new
entry, eviction proceeds until it fits or the cache becomes empty"; "capacity ≤ 0 disables
eviction pressure". -/
def evictOldestFirst (maxBytes : Int) : List entry → List entry
  | [] => []
  | e :: rest =>
    if maxBytes ≤ 0 ∨ nbytes (e :: rest) ≤ maxBytes then e :: rest
    else evictOldestFirst maxBytes rest

/-- Modelled from the spec: the package `GeeCache/lru` is missing.  Eviction on the entries
in recency order. -/
def evict (maxBytes : Int) (l : List entry) : List entry :=
  (evictOldestFirst maxBytes l.reverse).reverse

/-- Modelled from the spec: the package `GeeCache/lru` is missing.  `Add`: "either inserts a
new entry or updates an existing one's value and recency", then evicts (section 3). -/
def Cache.Add (c : Cache) (key : GoString) (value : ByteView) : Cache :=
  { c with ll := evict c.maxBytes (⟨key, value⟩ :: c.ll.filter (fun e => e.key ≠ key)) }

/-- Modelled from the spec: the package `GeeCache/lru` is missing.  `Get`: "returns a
hit/miss indicator; a hit updates recency" (section 4.1): on a hit the entry becomes the
most recently used one, on a miss nothing changes. -/
def Cache.Get (c : Cache) (key : GoString) : Option ByteView × Cache :=
  match c.ll.find? (fun e => e.key = key) with
  | some e => (some e.value, { c with ll := e :: c.ll.filter (fun e => e.key ≠ key) })
  | none => (none, c)

end lru

/-! ## `geecache/cache/cache.go` -/

/-- Go `cache.Cache`: the lazily created LRU and the capacity (the mutex is not modelled:
every operation below is one critical section). -/
structure Cache where
  lru : Option lru.Cache
  CacheBytes : Int
deriving DecidableEq, Repr

/-- Go `Cache.Add`: creates the LRU on first use, then adds. -/
def Cache.Add (c : Cache) (key : GoString) (value : ByteView) : Cache :=
  let l := match c.lru with
    | none => lru.New c.CacheBytes
    | some l => l
  { c with lru := some (l.Add key value) }

/-- Go `Cache.Get`: a miss when the LRU was never created, else the LRU lookup.  Returns the
pair `(value, ok)` as an option, and the cache after the call. -/
def Cache.Get (c : Cache) (key : GoString) : Option ByteView × Cache :=
  match c.lru with
  | none => (none, c)
  | some l =>
    match l.Get key with
    | (some v, l1) => (some v, { c with lru := some l1 })
    | (none, l1) => (none, { c with lru := some l1 })

/-! ## `geecache/group/group.go` -/

/-- The outcome of a Go call returning `([]byte, error)`. -/
abbrev LoadResult := Except GoError Bytes

/-- Go `Getter`: loads data for a key.  The loader is application code with effects of its
own: it runs on a state `σ` of the application and returns the state after the call. -/
abbrev Getter (σ : Type) := GoString → σ → LoadResult × σ

/-- Go `PeerGetter`: `Get(group, key)` of a peer. -/
abbrev PeerGetter (σ : Type) := GoString → GoString → σ → LoadResult × σ

/-- Go `PeerPicker`: `PickPeer(key)` returns `(peer, ok)`; `none` is `ok = false`. -/
abbrev PeerPicker (σ : Type) := GoString → Option (PeerGetter σ)

/-- Go `Group`: a cache namespace. -/
structure Group (σ : Type) where
  name : GoString
  getter : Getter σ
  mainCache : Cache
  peers : Option (PeerPicker σ)

/-- The state after a call of `Group.Get` and what the call did. -/
structure GetOutcome (σ : Type) where
  /-- The returned `(value, error)` pair. -/
  ret : Except GoError ByteView
  /-- The group after the call. -/
  group : Group σ
  /-- The application state after the call. -/
  app : σ
  /-- The keys with which the group's getter was invoked during the call, in order. -/
  loads : List GoString

/-- Go `Group.RegisterPeers`. -/
def Group.RegisterPeers {σ : Type} (g : Group σ) (peers : PeerPicker σ) : Group σ :=
  { g with peers := some peers }

/-- Go `Group.populateCache`. -/
def Group.populateCache {σ : Type} (g : Group σ) (key : GoString) (value : ByteView) :
    Group σ :=
  { g with mainCache := g.mainCache.Add key value }

/-- Go `Group.getLocally`: calls the getter; an error is returned as it is, a value is
wrapped in a `ByteView`, put in the cache and returned.  The Go code wraps the getter's
slice itself, `ByteView{B: bytes}`, without `cloneBytes`: the cached view shares the
getter's backing array.  Slices are held by content here, so this definition gives what
the call returns and stores at the time of the call; it says nothing of what the cached
view reads after the application has written to that array. -/
def Group.getLocally {σ : Type} (g : Group σ) (key : GoString) (s : σ) : GetOutcome σ :=
  match g.getter key s with
  | (.error err, s') => ⟨.error err, g, s', [key]⟩
  | (.ok bytes, s') =>
    let value : ByteView := ⟨bytes⟩
    ⟨.ok value, g.populateCache key value, s', [key]⟩

/-- Go `Group.load`: the body is the single statement `return g.getLocally(key)`. -/
def Group.load {σ : Type} (g : Group σ) (key : GoString) (s : σ) : GetOutcome σ :=
  g.getLocally key s

/-- Go `Group.Get`: value for a key from the cache, else loaded. -/
def Group.Get {σ : Type} (g : Group σ) (key : GoString) (s : σ) : GetOutcome σ :=
  if key = [] then
    ⟨.error (Errorf (str "key is required")), g, s, []⟩
  else
    match g.mainCache.Get key with
    | (some v, c) => ⟨.ok v, { g with mainCache := c }, s, []⟩
    | (none, c) => Group.load { g with mainCache := c } key s

/-- The registry of groups: Go's package variable `groups`, a map from names to `*Group`.
A pointer to a group is modelled by the group stored in the table; `none` is `nil`. -/
structure Registry (σ : Type) where
  groups : GoString → Option (Group σ)

/-- The registry at program start: `groups = make(map[string]*Group)`. -/
def Registry.init (σ : Type) : Registry σ := ⟨fun _ => none⟩

/-- Go `NewGroup`: panics (`none`) on a nil getter; else creates the group with an unused
cache of the given capacity, stores it under its name and returns it. -/
def NewGroup {σ : Type} (R : Registry σ) (name : GoString) (cacheBytes : Int)
    (getter : Option (Getter σ)) : Option (Group σ × Registry σ) :=
  match getter with
  | none => none
  | some f =>
    let g : Group σ :=
      { name := name, getter := f, mainCache := { lru := none, CacheBytes := cacheBytes },
        peers := none }
    some (g, ⟨fun n => if n = name then some g else R.groups n⟩)

/-- Go `GetGroup`: the named group previously created with `NewGroup`, or `nil`. -/
def GetGroup {σ : Type} (R : Registry σ) (name : GoString) : Option (Group σ) :=
  R.groups name

/-! ## Go library functions used by `geecache/http/http.go` -/

/-- Go `strings.HasPrefix`. -/
def HasPrefix (s pre : GoString) : Bool := pre.isPrefixOf s

/-- Go `strings.SplitN` for a separator of one byte and a count `n ≥ 0`: at most `n`
pieces, the last one being the unsplit remainder. -/
def SplitN (s : GoString) (sep : Byte) : Nat → List GoString
  | 0 => []
  | 1 => [s]
  | n + 2 =>
    match s.dropWhile (fun c => c != sep) with
    | [] => [s]
    | _ :: b => s.takeWhile (fun c => c != sep) :: SplitN b sep (n + 1)

/-- Go `net/url`: `upperhex[i]`, the digits `0123456789ABCDEF`. -/
def upperhex (i : Byte) : Byte := (str "0123456789ABCDEF").getD i.val 0

/-- Go `net/url`: `shouldEscape(c, encodeQueryComponent)`: letters, digits and the marks
`-_.~` are kept, every other byte is escaped. -/
def shouldEscape (c : Byte) : Bool :=
  if (ch 'a' ≤ c ∧ c ≤ ch 'z') ∨ (ch 'A' ≤ c ∧ c ≤ ch 'Z') ∨ (ch '0' ≤ c ∧ c ≤ ch '9') then
    false
  else if c = ch '-' ∨ c = ch '_' ∨ c = ch '.' ∨ c = ch '~' then false
  else true

/-- Go `url.QueryEscape`: a space becomes `+`, a byte to escape becomes `%XX`. -/
def QueryEscape : GoString → GoString
  | [] => []
  | c :: rest =>
    if c = ch ' ' then ch '+' :: QueryEscape rest
    else if shouldEscape c then
      ch '%' :: upperhex (c >>> 4) :: upperhex (c &&& 15) :: QueryEscape rest
    else c :: QueryEscape rest

/-- Go `net/url`: `ishex`. -/
def ishex (c : Byte) : Bool :=
  (ch '0' ≤ c ∧ c ≤ ch '9') ∨ (ch 'a' ≤ c ∧ c ≤ ch 'f') ∨ (ch 'A' ≤ c ∧ c ≤ ch 'F')

/-- Go `net/url`: `unhex`. -/
def unhex (c : Byte) : Byte :=
  if ch '0' ≤ c ∧ c ≤ ch '9' then c - ch '0'
  else if ch 'a' ≤ c ∧ c ≤ ch 'f' then c - ch 'a' + 10
  else if ch 'A' ≤ c ∧ c ≤ ch 'F' then c - ch 'A' + 10
  else 0

/-- Go `net/url`: `unescape(s, encodePath)`, by which `net/http`'s server obtains
`r.URL.Path` from the path of the request line: `%XX` becomes the byte `XX`, every other
byte (a `+` too) stands for itself; `none` is the error on a malformed `%`. -/
def unescapePath : GoString → Option GoString
  | [] => some []
  | c :: rest =>
    if c = ch '%' then
      match rest with
      | h1 :: h2 :: rest2 =>
        if ishex h1 ∧ ishex h2 then
          (unescapePath rest2).map (fun t => ((unhex h1 <<< 4) ||| unhex h2) :: t)
        else none
      | _ => none
    else (unescapePath rest).map (fun t => c :: t)

/-- Go `strconv.Itoa` on a natural number. -/
def Itoa (i : Nat) : GoString := str (Nat.repr i)

/-- Go `http.ResponseWriter`, by what was written to it: the header map, the status code
once the header was written, and the body. -/
structure ResponseWriter where
  header : List (GoString × GoString)
  status : Option Nat
  body : Bytes
deriving DecidableEq, Repr

/-- The response writer a handler receives. -/
def ResponseWriter.new : ResponseWriter := ⟨[], none, []⟩

/-- Go `Header.Get`. -/
def ResponseWriter.Get (w : ResponseWriter) (k : GoString) : Option GoString :=
  (w.header.find? (fun kv => kv.1 = k)).map Prod.snd

/-- Go `Header.Del`. -/
def ResponseWriter.Del (w : ResponseWriter) (k : GoString) : ResponseWriter :=
  { w with header := w.header.filter (fun kv => kv.1 ≠ k) }

/-- Go `Header.Set`. -/
def ResponseWriter.Set (w : ResponseWriter) (k v : GoString) : ResponseWriter :=
  { w with header := (k, v) :: w.header.filter (fun kv => kv.1 ≠ k) }

/-- Go `ResponseWriter.WriteHeader`: the first call fixes the status code. -/
def ResponseWriter.WriteHeader (w : ResponseWriter) (code : Nat) : ResponseWriter :=
  match w.status with
  | none => { w with status := some code }
  | some _ => w

/-- Go `ResponseWriter.Write`: writes the header with status 200 if none was written. -/
def ResponseWriter.Write (w : ResponseWriter) (b : Bytes) : ResponseWriter :=
  let w1 := w.WriteHeader 200
  { w1 with body := w1.body ++ b }

/-- Go `http.Error`: sets the plain-text content type, writes the status code and prints
the message with `fmt.Fprintln`, so followed by a line feed. -/
def Error (w : ResponseWriter) (error : GoString) (code : Nat) : ResponseWriter :=
  let w1 := w.Del (str "Content-Length")
  let w2 := w1.Set (str "Content-Type") (str "text/plain; charset=utf-8")
  let w3 := w2.Set (str "X-Content-Type-Options") (str "nosniff")
  (w3.WriteHeader code).Write (error ++ [ch '\n'])

/-- Go `http.StatusBadRequest`. -/
def StatusBadRequest : Nat := 400

/-- Go `http.StatusNotFound`. -/
def StatusNotFound : Nat := 404

/-- Go `http.StatusInternalServerError`. -/
def StatusInternalServerError : Nat := 500

/-- Go `http.StatusOK`. -/
def StatusOK : Nat := 200

/-! ## The consistent-hash `Map` of package `http` (not among the sources; modelled from
the specification) -/

/-- Modelled from the spec: the file of package `http` declaring `Map` is missing.  The
"pluggable hash function" of the ring (section 3, "Hash Ring"). -/
abbrev Hash := GoString → Nat

/-- Modelled from the spec: the file of package `http` declaring `Map` is missing.  The ring
"owns a sorted sequence of virtual-node hash values, each mapping back to a physical peer
identifier, with a configurable number of virtual replicas per physical peer and a
pluggable hash function" (section 3). -/
structure Map where
  hash : Hash
  replicas : Int
  keys : List Nat
  hashMap : Nat → Option GoString

/-- Modelled from the spec: the file of package `http` declaring `Map` is missing.
`NewMap(replicas, fn)`: an empty ring; a nil `fn` selects the default hash, "a standard
non-cryptographic 32-bit hash", which the spec does not name and which is a parameter
here. -/
def NewMap (defaultHash : Hash) (replicas : Int) (fn : Option Hash) : Map :=
  { hash := fn.getD defaultHash, replicas := replicas, keys := [], hashMap := fun _ => none }

/-- Modelled from the spec: the file of package `http` declaring `Map` is missing.  One
virtual position of a peer: "peer identifier concatenated with a replica index, then
hashed"; the position is appended and mapped back to the peer. -/
def Map.addReplica (peer : GoString) (m : Map) (i : Nat) : Map :=
  let h := m.hash (peer ++ Itoa i)
  { m with keys := m.keys ++ [h], hashMap := fun x => if x = h then some peer else m.hashMap x }

/-- Modelled from the spec: the file of package `http` declaring `Map` is missing.  A peer
is "expanded into `replicas` virtual positions". -/
def Map.addPeer (m : Map) (peer : GoString) : Map :=
  (List.range m.replicas.toNat).foldl (Map.addReplica peer) m

/-- Modelled from the spec: the file of package `http` declaring `Map` is missing.
`Add(peerIDs...)`: "adding peers is an append-then-sort operation" (section 3). -/
def Map.Add (m : Map) (peers : List GoString) : Map :=
  let m1 := peers.foldl Map.addPeer m
  { m1 with keys := m1.keys.insertionSort (fun a b => a ≤ b) }

/-- Modelled from the spec: the file of package `http` declaring `Map` is missing.  The
index of "the smallest virtual-node hash ≥ the key's hash" in the sorted positions, the
number of positions if there is none. -/
def Map.search (keys : List Nat) (h : Nat) : Nat :=
  (keys.takeWhile (fun k => k < h)).length

/-- Modelled from the spec: the file of package `http` declaring `Map` is missing.
`Get(key)`: "returns an empty/sentinel result if no peers are registered"; else the peer
owning the smallest position ≥ the key's hash, with "wrap-around to the first position if
the key's hash exceeds all virtual-node hashes" (section 4.2). -/
def Map.Get (m : Map) (key : GoString) : GoString :=
  if m.keys = [] then []
  else
    let idx := Map.search m.keys (m.hash key)
    match m.hashMap (m.keys.getD (idx % m.keys.length) 0) with
    | some peer => peer
    | none => []

/-! ## `geecache/http/http.go` -/

/-- Go `defaultBasePath`. -/
def defaultBasePath : GoString := str "/_geecache/"

/-- Go `defaultReplicas`. -/
def defaultReplicas : Int := 50

/-- Go `httpGetter`: the client handle of a peer. -/
structure httpGetter where
  baseURL : GoString
deriving DecidableEq, Repr

/-- Go `HTTPPool`: a pool of HTTP peers.  `peers` is `nil` until `Set`; reading the nil
map `httpGetters` is reading the empty map. -/
structure HTTPPool where
  self : GoString
  basePath : GoString
  peers : Option Map
  httpGetters : GoString → Option httpGetter

/-- Go `NewHTTPPool`. -/
def NewHTTPPool (self : GoString) : HTTPPool :=
  { self := self, basePath := defaultBasePath, peers := none, httpGetters := fun _ => none }

/-- The part of a Go `http.Request` that `ServeHTTP` reads. -/
structure Request where
  Method : GoString
  Path : GoString

/-- The state after a call of `HTTPPool.ServeHTTP` and what the call did. -/
structure ServeOutcome (σ : Type) where
  /-- The response written. -/
  w : ResponseWriter
  /-- The registry of groups after the call. -/
  registry : Registry σ
  /-- The application state after the call. -/
  app : σ
  /-- The calls of `Group.Get` made: the name under which the group was found, and the
  key passed. -/
  gets : List (GoString × GoString)
  /-- The keys with which a getter was invoked during the call. -/
  loads : List GoString

/-- Go `HTTPPool.ServeHTTP`: panics (`none`) on a path outside the base path; splits the
rest of the path once at `/` into group name and key; answers 400 if there are not two
parts, 404 if no group has that name, 500 if the group's `Get` fails, else the bytes.
(The log line is not modelled.) -/
def HTTPPool.ServeHTTP {σ : Type} (p : HTTPPool) (R : Registry σ) (s : σ)
    (w : ResponseWriter) (r : Request) : Option (ServeOutcome σ) :=
  if ¬ HasPrefix r.Path p.basePath then none
  else
    match SplitN (r.Path.drop p.basePath.length) (ch '/') 2 with
    | [groupName, key] =>
      match GetGroup R groupName with
      | none =>
        some ⟨Error w (str "no such group: " ++ groupName) StatusNotFound, R, s, [], []⟩
      | some group =>
        let out := group.Get key s
        let R1 : Registry σ :=
          ⟨fun n => if n = groupName then some out.group else R.groups n⟩
        match out.ret with
        | .error err =>
          some ⟨Error w err.text StatusInternalServerError, R1, out.app,
            [(groupName, key)], out.loads⟩
        | .ok view =>
          some ⟨(w.Set (str "Content-Type") (str "application/octet-stream")).Write
            view.ByteSlice, R1, out.app, [(groupName, key)], out.loads⟩
    | _ => some ⟨Error w (str "bad request") StatusBadRequest, R, s, [], []⟩

/-- The part of a Go `http.Response` that `httpGetter.Get` reads; `Body` is the result of
`io.ReadAll(res.Body)`. -/
structure Response where
  StatusCode : Nat
  Status : GoString
  Body : Except GoError Bytes

/-- Go `http.Get` as seen by the caller: the URL and the application state go in, an error
or a response comes out. -/
abbrev Transport (σ : Type) := GoString → σ → Except GoError Response × σ

/-- The URL that `httpGetter.Get` requests:
`fmt.Sprintf("%v%v/%v", h.baseURL, url.QueryEscape(group), url.QueryEscape(key))`. -/
def httpGetter.requestURL (h : httpGetter) (group key : GoString) : GoString :=
  h.baseURL ++ QueryEscape group ++ str "/" ++ QueryEscape key

/-- Go `httpGetter.Get`: requests the URL; a transport error is returned as it is, a
status other than 200 and a failure to read the body become errors, else the body. -/
def httpGetter.Get {σ : Type} (h : httpGetter) (httpGet : Transport σ)
    (group key : GoString) (s : σ) : LoadResult × σ :=
  let u := h.requestURL group key
  match httpGet u s with
  | (.error err, s1) => (.error err, s1)
  | (.ok res, s1) =>
    if res.StatusCode ≠ StatusOK then
      (.error (Errorf (str "server returned: " ++ res.Status)), s1)
    else
      match res.Body with
      | .error err => (.error (Errorf (str "reading response body: " ++ err.text)), s1)
      | .ok bytes => (.ok bytes, s1)

/-- Go `HTTPPool.Set`: a new ring with the default replica count and the default hash, to
which the peers are added, and a new map holding one client handle per peer. -/
def HTTPPool.Set (defaultHash : Hash) (p : HTTPPool) (peers : List GoString) : HTTPPool :=
  let ring := (NewMap defaultHash defaultReplicas none).Add peers
  let getters : GoString → Option httpGetter :=
    peers.foldl (fun m peer => fun k => if k = peer then some ⟨peer ++ p.basePath⟩ else m k)
      (fun _ => none)
  { p with peers := some ring, httpGetters := getters }

/-- Go `HTTPPool.PickPeer`: asks the ring; a peer that is neither empty nor the pool itself
is answered with its client handle and `true`, else `(nil, false)`.  `none` is the panic of
a pool whose ring is still `nil`. -/
def HTTPPool.PickPeer (p : HTTPPool) (key : GoString) : Option (Option httpGetter × Bool) :=
  match p.peers with
  | none => none
  | some ring =>
    let peer := ring.Get key
    if peer ≠ [] ∧ peer ≠ p.self then some (p.httpGetters peer, true)
    else some (none, false)

/-! ## Concrete groups, loaders, peers and pools, used at the concrete inputs below -/

/-- A loader over a call counter: it knows the key `alice`, whose value is `42`, and
fails on every other key. -/
def scoresLoader : Getter Nat := fun key n =>
  (if key = str "alice" then .ok (str "42") else .error (Errorf (str "no such key")), n + 1)

/-- The group `scores` of the given capacity, as `NewGroup` creates it. -/
def scoresGroup (cacheBytes : Int) : Group Nat :=
  { name := str "scores", getter := scoresLoader,
    mainCache := { lru := none, CacheBytes := cacheBytes }, peers := none }

/-- A peer whose fetch succeeds with the bytes `remote` on every key. -/
def remotePeer : PeerGetter Nat := fun _ _ n => (.ok (str "remote"), n)

/-- A picker that names `remotePeer` for every key. -/
def remotePicker : PeerPicker Nat := fun _ => some remotePeer

/-- The registry after a sequence of `NewGroup` calls with non-nil getters, given by the
names, capacities and getters in call order. -/
def Registry.after {σ : Type} (R : Registry σ) :
    List (GoString × Int × Getter σ) → Registry σ
  | [] => R
  | (name, cacheBytes, getter) :: calls =>
    match NewGroup R name cacheBytes (some getter) with
    | some (_, R1) => Registry.after R1 calls
    | none => R

/-- The registry holding the one group `scores` of 2048 bytes. -/
def scoresRegistry : Registry Nat :=
  (Registry.init Nat).after [(str "scores", 2048, scoresLoader)]

/-- The pool of the node `http://localhost:8001`. -/
def localPool : HTTPPool := NewHTTPPool (str "http://localhost:8001")

/-- The client handle that `Set` creates for the peer `http://localhost:8001`. -/
def localGetter : httpGetter := ⟨str "http://localhost:8001" ++ defaultBasePath⟩

/-- The path of the request line for a URL of the peer `http://localhost:8001`: the URL
without scheme and host. -/
def localRequestPath (u : GoString) : GoString := u.drop (str "http://localhost:8001").length

/-- What the server of `localPool` does with the request for the URL `u`: the path is
unescaped into `r.URL.Path` (a malformed path is refused before the handler, `none`), then
`ServeHTTP` runs. -/
def localServe (R : Registry Nat) (s : Nat) (u : GoString) : Option (ServeOutcome Nat) :=
  match unescapePath (localRequestPath u) with
  | none => none
  | some path => localPool.ServeHTTP R s ResponseWriter.new ⟨str "GET", path⟩

/-! ## Lemmas on the cache -/

theorem Cache_Get_miss (c : Cache) (key : GoString) (h : (c.Get key).1 = none) :
    c.Get key = (none, c) := by
  unfold Cache.Get at h ⊢
  cases hl : c.lru with
  | none => rfl
  | some l =>
    simp only [hl] at h ⊢
    unfold lru.Cache.Get at h ⊢
    cases hf : l.ll.find? (fun e => e.key = key) with
    | none =>
      cases c
      simp_all
    | some e => simp [hf] at h

/-! ## Claims on `Group.Get` -/

/-- C1: `Group.Get` on the empty key returns the error `key is required`, invokes the
getter not at all and leaves the group (its cache included) and the application state as
they were, whatever the cache holds, whatever the getter and the peer picker are. -/
theorem Get_empty_key {σ : Type} (g : Group σ) (s : σ) :
    (g.Get [] s).ret = .error (Errorf (str "key is required")) ∧
    (g.Get [] s).loads = [] ∧
    (g.Get [] s).group = g ∧
    (g.Get [] s).group.mainCache = g.mainCache ∧
    (g.Get [] s).app = s := by
  simp [Group.Get]

/-- `Group.Get` never reads the registered picker: registering one changes nothing of what
`Get` returns, loads or stores. -/
theorem Get_ignores_peers {σ : Type} (g : Group σ) (picker : PeerPicker σ) (key : GoString)
    (s : σ) :
    ((g.RegisterPeers picker).Get key s).ret = (g.Get key s).ret ∧
    ((g.RegisterPeers picker).Get key s).loads = (g.Get key s).loads ∧
    ((g.RegisterPeers picker).Get key s).group.mainCache = (g.Get key s).group.mainCache ∧
    ((g.RegisterPeers picker).Get key s).app = (g.Get key s).app := by
  unfold Group.Get Group.RegisterPeers
  by_cases hk : key = []
  · simp [hk]
  · simp only [hk, if_false]
    rcases hc : g.mainCache.Get key with ⟨v, c⟩
    cases v with
    | some v => simp
    | none =>
      simp only [Group.load, Group.getLocally, Group.populateCache]
      rcases hg : g.getter key s with ⟨r, s1⟩
      cases r <;> simp

/-- C3, on the code: the group `scores` with the picker `remotePicker` registered, whose
peer answers every fetch with `remote`; the key `alice` misses the cache.  `Get` returns
the loader's `42` instead of the peer's bytes, invokes the loader, and stores the key in
the local cache. -/
theorem Get_with_peer_loads_locally :
    (remotePicker (str "alice")).isSome = true ∧
    (remotePeer (str "scores") (str "alice") 0).1 = .ok (str "remote") ∧
    ((((scoresGroup 2048).RegisterPeers remotePicker).mainCache.Get (str "alice")).1 = none) ∧
    (((scoresGroup 2048).RegisterPeers remotePicker).Get (str "alice") 0).ret
      = .ok ⟨str "42"⟩ ∧
    (((scoresGroup 2048).RegisterPeers remotePicker).Get (str "alice") 0).loads
      = [str "alice"] ∧
    ((((scoresGroup 2048).RegisterPeers remotePicker).Get (str "alice") 0).group.mainCache.Get
      (str "alice")).1 = some ⟨str "42"⟩ := by
  decide

/-- C4: for a non-empty key that misses the local cache, if the getter returns the error
`e` then `Get` returns exactly `e`, the getter was invoked once (with the key), the cache is
as it was before the call and still misses the key. -/
theorem Get_loader_error {σ : Type} (g : Group σ) (key : GoString) (s s1 : σ) (e : GoError)
    (hkey : key ≠ [])
    (hmiss : (g.mainCache.Get key).1 = none)
    (hload : g.getter key s = (.error e, s1)) :
    (g.Get key s).ret = .error e ∧
    (g.Get key s).loads = [key] ∧
    (g.Get key s).group.mainCache = g.mainCache ∧
    ((g.Get key s).group.mainCache.Get key).1 = none ∧
    (g.Get key s).app = s1 := by
  have hm := Cache_Get_miss g.mainCache key hmiss
  have h1 : g.Get key s = ⟨.error e, g, s1, [key]⟩ := by
    simp [Group.Get, hkey, hm, Group.load, Group.getLocally, hload]
  rw [h1]
  exact ⟨rfl, rfl, rfl, hmiss, rfl⟩

/-- C4 at a concrete input: the group `scores` holding `alice`, asked for `bob`, on which
the loader fails. -/
theorem Get_loader_error_witness :
    (((scoresGroup 2048).Get (str "alice") 0).group.Get (str "bob") 1).ret
      = .error (Errorf (str "no such key")) ∧
    (((scoresGroup 2048).Get (str "alice") 0).group.Get (str "bob") 1).loads = [str "bob"] ∧
    (((scoresGroup 2048).Get (str "alice") 0).group.Get (str "bob") 1).group.mainCache
      = ((scoresGroup 2048).Get (str "alice") 0).group.mainCache ∧
    ((((scoresGroup 2048).Get (str "alice") 0).group.Get (str "bob") 1).group.mainCache.Get
      (str "bob")).1 = none ∧
    (((scoresGroup 2048).Get (str "alice") 0).group.Get (str "bob") 1).app = 2 :=
  Get_loader_error ((scoresGroup 2048).Get (str "alice") 0).group (str "bob") 1 2
    (Errorf (str "no such key")) (by decide) (by decide) (by decide)

/-! ## Lemmas on paths -/

theorem HasPrefix_append (base rest : GoString) : HasPrefix (base ++ rest) base = true := by
  simp [HasPrefix]

theorem dropWhile_no_sep (sep : Byte) (l : GoString) (h : sep ∉ l) :
    l.dropWhile (fun c => c != sep) = [] := by
  induction l with
  | nil => rfl
  | cons a l ih =>
    have ha : (a != sep) = true := by
      simp only [bne_iff_ne]
      exact fun e => h (by simp [e])
    have hl : sep ∉ l := fun e => h (by simp [e])
    rw [List.dropWhile_cons, if_pos ha]
    exact ih hl

theorem dropWhile_at_sep (sep : Byte) (name key : GoString) (h : sep ∉ name) :
    (name ++ sep :: key).dropWhile (fun c => c != sep) = sep :: key := by
  induction name with
  | nil => simp [List.dropWhile_cons]
  | cons a l ih =>
    have ha : (a != sep) = true := by
      simp only [bne_iff_ne]
      exact fun e => h (by simp [e])
    have hl : sep ∉ l := fun e => h (by simp [e])
    rw [List.cons_append, List.dropWhile_cons, if_pos ha]
    exact ih hl

theorem takeWhile_at_sep (sep : Byte) (name key : GoString) (h : sep ∉ name) :
    (name ++ sep :: key).takeWhile (fun c => c != sep) = name := by
  induction name with
  | nil => simp [List.takeWhile_cons]
  | cons a l ih =>
    have ha : (a != sep) = true := by
      simp only [bne_iff_ne]
      exact fun e => h (by simp [e])
    have hl : sep ∉ l := fun e => h (by simp [e])
    rw [List.cons_append, List.takeWhile_cons, if_pos ha, ih hl]

theorem SplitN_two_single (sep : Byte) (rest : GoString) (h : sep ∉ rest) :
    SplitN rest sep 2 = [rest] := by
  simp only [SplitN, dropWhile_no_sep sep rest h]

theorem SplitN_two_cut (sep : Byte) (name key : GoString) (h : sep ∉ name) :
    SplitN (name ++ sep :: key) sep 2 = [name, key] := by
  simp only [SplitN, dropWhile_at_sep sep name key h, takeWhile_at_sep sep name key h]

theorem Error_status (msg : GoString) (code : Nat) :
    (Error ResponseWriter.new msg code).status = some code := rfl

theorem Error_body (msg : GoString) (code : Nat) :
    (Error ResponseWriter.new msg code).body = msg ++ [ch '\n'] := rfl

/-! ## Claims on `HTTPPool.ServeHTTP` -/

/-- C6, as the claim states it, fails: with the one group `scores` registered, the
remainder of `/_geecache/scores/x/k` is `name/key` for the name `scores/x`, under which no
group is registered; `ServeHTTP` splits at the first `/`, finds the group `scores`, calls
its `Get` with the key `x/k`, which invokes the loader, and answers 500, not 404. -/
theorem ServeHTTP_slash_in_name :
    str "scores/x/k" = str "scores/x" ++ ch '/' :: str "k" ∧
    (GetGroup scoresRegistry (str "scores/x")).isNone = true ∧
    (localPool.ServeHTTP scoresRegistry 0 ResponseWriter.new
        ⟨str "GET", localPool.basePath ++ str "scores/x/k"⟩).map (fun out => out.w.status)
      = some (some 500) ∧
    (localPool.ServeHTTP scoresRegistry 0 ResponseWriter.new
        ⟨str "GET", localPool.basePath ++ str "scores/x/k"⟩).map (fun out => out.w.status)
      ≠ some (some 404) ∧
    (localPool.ServeHTTP scoresRegistry 0 ResponseWriter.new
        ⟨str "GET", localPool.basePath ++ str "scores/x/k"⟩).map (fun out => out.gets)
      = some [(str "scores", str "x/k")] ∧
    (localPool.ServeHTTP scoresRegistry 0 ResponseWriter.new
        ⟨str "GET", localPool.basePath ++ str "scores/x/k"⟩).map (fun out => out.loads)
      = some [str "x/k"] := by
  decide

/-- C6, amended: on a request path that begins with the pool's base path, `ServeHTTP`
answers with status 400 if the remainder contains no `/`, and with status 404 if the
remainder is `name/key` where `name` contains no `/` (it is the segment before the first
`/`) and no group is registered under `name`; in both cases no group's `Get` is called, no
getter is invoked, and the registry and the application state are as before. -/
theorem ServeHTTP_bad_path {σ : Type} (p : HTTPPool) (R : Registry σ) (s : σ)
    (method rest : GoString) :
    (ch '/' ∉ rest →
      ∃ out, p.ServeHTTP R s ResponseWriter.new ⟨method, p.basePath ++ rest⟩ = some out ∧
        out.w.status = some 400 ∧ out.gets = [] ∧ out.loads = [] ∧
        out.registry = R ∧ out.app = s) ∧
    (∀ name key : GoString, rest = name ++ ch '/' :: key → ch '/' ∉ name →
      GetGroup R name = none →
      ∃ out, p.ServeHTTP R s ResponseWriter.new ⟨method, p.basePath ++ rest⟩ = some out ∧
        out.w.status = some 404 ∧ out.gets = [] ∧ out.loads = [] ∧
        out.registry = R ∧ out.app = s) := by
  constructor
  · intro h
    refine ⟨⟨Error ResponseWriter.new (str "bad request") StatusBadRequest, R, s, [], []⟩,
      ?_, rfl, rfl, rfl, rfl, rfl⟩
    simp [HTTPPool.ServeHTTP, HasPrefix_append, SplitN_two_single _ rest h]
  · intro name key hrest hname hnone
    refine ⟨⟨Error ResponseWriter.new (str "no such group: " ++ name) StatusNotFound, R, s,
      [], []⟩, ?_, rfl, rfl, rfl, rfl, rfl⟩
    subst hrest
    simp [HTTPPool.ServeHTTP, HasPrefix_append, SplitN_two_cut _ name key hname, hnone]

/-- C6, amended, at concrete requests to the pool of `localhost:8001` with the one group `scores`:
`/_geecache/onlyonesegment` and `/_geecache/unknown/key`. -/
theorem ServeHTTP_bad_path_witness :
    (∃ out, localPool.ServeHTTP scoresRegistry 0 ResponseWriter.new
        ⟨str "GET", localPool.basePath ++ str "onlyonesegment"⟩ = some out ∧
        out.w.status = some 400 ∧ out.gets = [] ∧ out.loads = [] ∧
        out.registry = scoresRegistry ∧ out.app = 0) ∧
    (∃ out, localPool.ServeHTTP scoresRegistry 0 ResponseWriter.new
        ⟨str "GET", localPool.basePath ++ str "unknown/key"⟩ = some out ∧
        out.w.status = some 404 ∧ out.gets = [] ∧ out.loads = [] ∧
        out.registry = scoresRegistry ∧ out.app = 0) :=
  ⟨(ServeHTTP_bad_path localPool scoresRegistry 0 (str "GET") (str "onlyonesegment")).1
      (by decide),
   (ServeHTTP_bad_path localPool scoresRegistry 0 (str "GET") (str "unknown/key")).2
      (str "unknown") (str "key") (by decide) (by decide) rfl⟩

/-- C7, as the claim states it, fails in one detail: the body of the 500 response is not
the error's text but the text followed by a line feed.  Here the group `scores` is asked
for the key `bob`, on which its loader fails with `no such key`. -/
theorem ServeHTTP_error_body_newline :
    (localPool.ServeHTTP scoresRegistry 0 ResponseWriter.new
        ⟨str "GET", str "/_geecache/scores/bob"⟩).map (fun out => out.gets)
      = some [(str "scores", str "bob")] ∧
    (localPool.ServeHTTP scoresRegistry 0 ResponseWriter.new
        ⟨str "GET", str "/_geecache/scores/bob"⟩).map (fun out => out.w.status)
      = some (some 500) ∧
    (localPool.ServeHTTP scoresRegistry 0 ResponseWriter.new
        ⟨str "GET", str "/_geecache/scores/bob"⟩).map (fun out => out.w.body)
      = some (str "no such key\n") ∧
    (localPool.ServeHTTP scoresRegistry 0 ResponseWriter.new
        ⟨str "GET", str "/_geecache/scores/bob"⟩).map (fun out => out.w.body)
      ≠ some (str "no such key") := by
  decide

/-- C7, amended: on the path `basePath + name + "/" + key`, where `name` contains no `/`
and is the name of a registered group and `key` is any string, `ServeHTTP` calls that
group's `Get` once, with exactly `key`, and stores the group as `Get` leaves it; if `Get`
returns an error the response has status 500 and as body the error's text followed by a
line feed; otherwise it has status 200, the content type `application/octet-stream` and a
body equal to the value's bytes. -/
theorem ServeHTTP_known_group {σ : Type} (p : HTTPPool) (R : Registry σ) (s : σ)
    (method name key : GoString) (g : Group σ)
    (hname : ch '/' ∉ name) (hg : GetGroup R name = some g) :
    ∃ out, p.ServeHTTP R s ResponseWriter.new ⟨method, p.basePath ++ name ++ ch '/' :: key⟩
        = some out ∧
      out.gets = [(name, key)] ∧
      out.loads = (g.Get key s).loads ∧
      out.app = (g.Get key s).app ∧
      GetGroup out.registry name = some (g.Get key s).group ∧
      (∀ err, (g.Get key s).ret = .error err →
        out.w.status = some 500 ∧ out.w.body = err.text ++ [ch '\n']) ∧
      (∀ view, (g.Get key s).ret = .ok view →
        out.w.status = some 200 ∧
        out.w.Get (str "Content-Type") = some (str "application/octet-stream") ∧
        out.w.body = view.B) := by
  have hsplit := SplitN_two_cut (ch '/') name key hname
  have hserve : p.ServeHTTP R s ResponseWriter.new
      ⟨method, p.basePath ++ name ++ ch '/' :: key⟩ =
      (match (g.Get key s).ret with
        | .error err =>
          some ⟨Error ResponseWriter.new err.text StatusInternalServerError,
            ⟨fun n => if n = name then some (g.Get key s).group else R.groups n⟩,
            (g.Get key s).app, [(name, key)], (g.Get key s).loads⟩
        | .ok view =>
          some ⟨(ResponseWriter.new.Set (str "Content-Type")
              (str "application/octet-stream")).Write view.ByteSlice,
            ⟨fun n => if n = name then some (g.Get key s).group else R.groups n⟩,
            (g.Get key s).app, [(name, key)], (g.Get key s).loads⟩) := by
    simp only [HTTPPool.ServeHTTP, List.append_assoc, HasPrefix_append, List.drop_left,
      hsplit, hg]
    simp
  rw [hserve]
  cases hret : (g.Get key s).ret with
  | error err =>
    refine ⟨_, rfl, rfl, rfl, rfl, by simp [GetGroup], ?_, ?_⟩
    · intro e he
      cases he
      exact ⟨rfl, rfl⟩
    · intro v hv
      cases hv
  | ok view =>
    refine ⟨_, rfl, rfl, rfl, rfl, by simp [GetGroup], ?_, ?_⟩
    · intro e he
      cases he
    · intro v hv
      cases hv
      refine ⟨rfl, ?_, ?_⟩
      · simp [ResponseWriter.Get, ResponseWriter.Write, ResponseWriter.Set,
          ResponseWriter.WriteHeader, ResponseWriter.new]
      · simp [ResponseWriter.Write, ResponseWriter.Set,
          ResponseWriter.WriteHeader, ResponseWriter.new, ByteView.ByteSlice, cloneBytes]

/-- C7 at a concrete request: the group `scores` asked for `alice` over HTTP. -/
theorem ServeHTTP_known_group_witness :
    ∃ out, localPool.ServeHTTP scoresRegistry 0 ResponseWriter.new
        ⟨str "GET", localPool.basePath ++ str "scores" ++ ch '/' :: str "alice"⟩ = some out ∧
      out.gets = [(str "scores", str "alice")] ∧
      out.loads = ((scoresGroup 2048).Get (str "alice") 0).loads ∧
      out.app = ((scoresGroup 2048).Get (str "alice") 0).app ∧
      GetGroup out.registry (str "scores")
        = some ((scoresGroup 2048).Get (str "alice") 0).group ∧
      (∀ err, ((scoresGroup 2048).Get (str "alice") 0).ret = .error err →
        out.w.status = some 500 ∧ out.w.body = err.text ++ [ch '\n']) ∧
      (∀ view, ((scoresGroup 2048).Get (str "alice") 0).ret = .ok view →
        out.w.status = some 200 ∧
        out.w.Get (str "Content-Type") = some (str "application/octet-stream") ∧
        out.w.body = view.B) :=
  ServeHTTP_known_group localPool scoresRegistry 0 (str "GET") (str "scores") (str "alice")
    (scoresGroup 2048) (by decide) rfl

/-- C5, on the code: the client asks the peer `http://localhost:8001` for the key `a b` of
the group `scores`.  It requests `/_geecache/scores/a+b`; the server's path decoding
leaves the `+` alone, and `ServeHTTP` calls the group's `Get` with the key `a+b` instead of
`a b`.  For the group name `a/b` and the key `k` the path is `/_geecache/a%2Fb/k`, decoded
to `/_geecache/a/b/k` and split into the name `a` and the key `b/k`. -/
theorem ServeHTTP_client_path_mismatch :
    localGetter.requestURL (str "scores") (str "a b")
      = str "http://localhost:8001/_geecache/scores/a+b" ∧
    unescapePath (localRequestPath (localGetter.requestURL (str "scores") (str "a b")))
      = some (str "/_geecache/scores/a+b") ∧
    (localServe scoresRegistry 0 (localGetter.requestURL (str "scores") (str "a b"))).map
      (fun out => out.gets) = some [(str "scores", str "a+b")] ∧
    (localServe scoresRegistry 0 (localGetter.requestURL (str "scores") (str "a b"))).map
      (fun out => out.loads) = some [str "a+b"] ∧
    localGetter.requestURL (str "a/b") (str "k")
      = str "http://localhost:8001/_geecache/a%2Fb/k" ∧
    unescapePath (localRequestPath (localGetter.requestURL (str "a/b") (str "k")))
      = some (str "/_geecache/a/b/k") ∧
    SplitN ((str "/_geecache/a/b/k").drop localPool.basePath.length) (ch '/') 2
      = [str "a", str "b/k"] := by
  decide

/-! ## Claims on the registry -/

theorem Registry_after_miss {σ : Type} (calls : List (GoString × Int × Getter σ))
    (R : Registry σ) (n : GoString) (hR : R.groups n = none)
    (hn : ∀ c ∈ calls, c.1 ≠ n) : GetGroup (R.after calls) n = none := by
  induction calls generalizing R with
  | nil => exact hR
  | cons c calls ih =>
    obtain ⟨name, cacheBytes, getter⟩ := c
    have hne : n ≠ name := fun e => hn (name, cacheBytes, getter) (by simp) e.symm
    simp only [Registry.after, NewGroup]
    apply ih
    · simp [hne, hR]
    · intro c hc
      exact hn c (by simp [hc])

/-- C10: `NewGroup` with a non-nil getter returns a group `g` with the given name, getter
and capacity and an unused cache; afterwards `GetGroup` of the name returns `g`, whatever
was registered under the name before, and `GetGroup` of every other name returns what it
returned before.  In the registry reached from the initial one by any sequence of
`NewGroup` calls, `GetGroup` of a name that none of the calls used returns nil. -/
theorem NewGroup_GetGroup {σ : Type} (R : Registry σ) (name : GoString) (cacheBytes : Int)
    (getter : Getter σ) :
    (∃ g R1, NewGroup R name cacheBytes (some getter) = some (g, R1) ∧
      g.name = name ∧ g.getter = getter ∧
      g.mainCache = { lru := none, CacheBytes := cacheBytes } ∧
      GetGroup R1 name = some g ∧
      ∀ other, other ≠ name → GetGroup R1 other = GetGroup R other) ∧
    (∀ (calls : List (GoString × Int × Getter σ)) (n : GoString),
      (∀ c ∈ calls, c.1 ≠ n) → GetGroup ((Registry.init σ).after calls) n = none) := by
  constructor
  · refine ⟨_, _, rfl, rfl, rfl, rfl, ?_, ?_⟩
    · simp [GetGroup]
    · intro other h
      simp [GetGroup, h]
  · intro calls n hn
    exact Registry_after_miss calls (Registry.init σ) n rfl hn

/-! ## Lemmas on the ring -/

theorem addReplica_hash (peer : GoString) (m : Map) (i : Nat) :
    (Map.addReplica peer m i).hash = m.hash := rfl

theorem foldl_addReplica_hash (peer : GoString) (l : List Nat) (m : Map) :
    (l.foldl (Map.addReplica peer) m).hash = m.hash := by
  induction l generalizing m with
  | nil => rfl
  | cons i l ih => rw [List.foldl_cons, ih, addReplica_hash]

theorem foldl_addReplica_replicas (peer : GoString) (l : List Nat) (m : Map) :
    (l.foldl (Map.addReplica peer) m).replicas = m.replicas := by
  induction l generalizing m with
  | nil => rfl
  | cons i l ih =>
    rw [List.foldl_cons, ih]
    rfl

theorem foldl_addReplica_hashMap (peer : GoString) (l : List Nat) (m : Map) (x : Nat)
    (q : GoString) (h : (l.foldl (Map.addReplica peer) m).hashMap x = some q) :
    q = peer ∨ m.hashMap x = some q := by
  induction l generalizing m with
  | nil => exact Or.inr h
  | cons i l ih =>
    rw [List.foldl_cons] at h
    rcases ih _ h with h1 | h1
    · exact Or.inl h1
    · simp only [Map.addReplica] at h1
      by_cases hx : x = m.hash (peer ++ Itoa i)
      · rw [if_pos hx] at h1
        exact Or.inl (Option.some.inj h1).symm
      · rw [if_neg hx] at h1
        exact Or.inr h1

theorem foldl_addReplica_keys (peer : GoString) (l : List Nat) (m : Map) (k : Nat) :
    k ∈ (l.foldl (Map.addReplica peer) m).keys ↔
      k ∈ m.keys ∨ ∃ i ∈ l, k = m.hash (peer ++ Itoa i) := by
  induction l generalizing m with
  | nil => simp
  | cons i l ih =>
    rw [List.foldl_cons, ih, addReplica_hash]
    simp only [Map.addReplica, List.mem_append, List.mem_singleton, List.mem_cons,
      List.not_mem_nil, or_false]
    constructor
    · rintro ((h | h) | ⟨j, hj, h⟩)
      · exact Or.inl h
      · exact Or.inr ⟨i, Or.inl rfl, h⟩
      · exact Or.inr ⟨j, Or.inr hj, h⟩
    · rintro (h | ⟨j, hj | hj, h⟩)
      · exact Or.inl (Or.inl h)
      · exact Or.inl (Or.inr (hj ▸ h))
      · exact Or.inr ⟨j, hj, h⟩

theorem foldl_addPeer_hash (l : List GoString) (m : Map) :
    (l.foldl Map.addPeer m).hash = m.hash := by
  induction l generalizing m with
  | nil => rfl
  | cons a l ih =>
    rw [List.foldl_cons, ih]
    exact foldl_addReplica_hash a _ m

theorem foldl_addPeer_replicas (l : List GoString) (m : Map) :
    (l.foldl Map.addPeer m).replicas = m.replicas := by
  induction l generalizing m with
  | nil => rfl
  | cons a l ih =>
    rw [List.foldl_cons, ih]
    exact foldl_addReplica_replicas a _ m

theorem foldl_addPeer_hashMap (l : List GoString) (m : Map) (x : Nat) (q : GoString)
    (h : (l.foldl Map.addPeer m).hashMap x = some q) : q ∈ l ∨ m.hashMap x = some q := by
  induction l generalizing m with
  | nil => exact Or.inr h
  | cons a l ih =>
    rw [List.foldl_cons] at h
    rcases ih _ h with h1 | h1
    · exact Or.inl (List.mem_cons_of_mem a h1)
    · rcases foldl_addReplica_hashMap a _ m x q h1 with h2 | h2
      · exact Or.inl (h2 ▸ List.mem_cons_self a l)
      · exact Or.inr h2

theorem foldl_addPeer_keys (l : List GoString) (m : Map) (k : Nat) :
    k ∈ (l.foldl Map.addPeer m).keys ↔
      k ∈ m.keys ∨ ∃ peer ∈ l, ∃ i < m.replicas.toNat, k = m.hash (peer ++ Itoa i) := by
  induction l generalizing m with
  | nil => simp
  | cons a l ih =>
    rw [List.foldl_cons, ih]
    have hh : (Map.addPeer m a).hash = m.hash := foldl_addReplica_hash a _ m
    have hr : (Map.addPeer m a).replicas = m.replicas := foldl_addReplica_replicas a _ m
    have hk := foldl_addReplica_keys a (List.range m.replicas.toNat) m k
    rw [hh, hr]
    unfold Map.addPeer
    rw [hk]
    simp only [List.mem_range, List.mem_cons]
    constructor
    · rintro ((h | ⟨i, hi, h⟩) | ⟨peer, hp, i, hi, h⟩)
      · exact Or.inl h
      · exact Or.inr ⟨a, Or.inl rfl, i, hi, h⟩
      · exact Or.inr ⟨peer, Or.inr hp, i, hi, h⟩
    · rintro (h | ⟨peer, hp | hp, i, hi, h⟩)
      · exact Or.inl (Or.inl h)
      · exact Or.inl (Or.inr ⟨i, hi, hp ▸ h⟩)
      · exact Or.inr ⟨peer, hp, i, hi, h⟩

theorem ring_hashMap (dh : Hash) (ps : List GoString) (x : Nat) (q : GoString)
    (h : ((NewMap dh defaultReplicas none).Add ps).hashMap x = some q) : q ∈ ps := by
  rcases foldl_addPeer_hashMap ps _ x q h with h1 | h1
  · exact h1
  · simp [NewMap] at h1

theorem ring_keys (dh : Hash) (ps : List GoString) (k : Nat) :
    k ∈ ((NewMap dh defaultReplicas none).Add ps).keys ↔
      ∃ peer ∈ ps, ∃ i < 50, k = dh (peer ++ Itoa i) := by
  have h := foldl_addPeer_keys ps (NewMap dh defaultReplicas none) k
  simp only [Map.Add, List.mem_insertionSort]
  rw [h]
  simp [NewMap, defaultReplicas]

theorem ring_Get (dh : Hash) (ps : List GoString) (key : GoString) :
    ((NewMap dh defaultReplicas none).Add ps).Get key = [] ∨
      ((NewMap dh defaultReplicas none).Add ps).Get key ∈ ps := by
  unfold Map.Get
  split
  · exact Or.inl rfl
  · simp only
    split
    · next peer hp => exact Or.inr (ring_hashMap dh ps _ peer hp)
    · exact Or.inl rfl

theorem Set_httpGetters_foldl (base : GoString) (ps : List GoString)
    (init : GoString → Option httpGetter) (k : GoString) :
    ps.foldl (fun m peer => fun k => if k = peer then some ⟨peer ++ base⟩ else m k) init k
      = if k ∈ ps then some ⟨k ++ base⟩ else init k := by
  induction ps generalizing init with
  | nil => simp
  | cons a l ih =>
    rw [List.foldl_cons, ih]
    by_cases hl : k ∈ l
    · simp [hl]
    · by_cases ha : k = a
      · simp [ha]
      · simp [hl, ha]

theorem Set_httpGetters (dh : Hash) (p : HTTPPool) (ps : List GoString) (k : GoString) :
    (HTTPPool.Set dh p ps).httpGetters k
      = if k ∈ ps then some ⟨k ++ p.basePath⟩ else none := by
  simp only [HTTPPool.Set]
  exact Set_httpGetters_foldl p.basePath ps (fun _ => none) k

/-! ## Claims on the pool -/

/-- C8: after `Set(ps)`, `PickPeer(key)` returns `(nil, false)` when the ring resolves the
key to the empty string (as it does when no peer was added) or to the pool's own
identifier; otherwise it returns `true` with the client handle registered for the resolved
peer, whose base URL is the peer followed by the base path.  After `Set()` with no peer it
returns `(nil, false)`.  It never returns the handle that is registered for the pool's own
identifier, nor any handle with the pool's own base URL. -/
theorem PickPeer_after_Set (dh : Hash) (p : HTTPPool) (ps : List GoString)
    (key : GoString) :
    (HTTPPool.Set dh p ps).PickPeer key =
      some (if ((NewMap dh defaultReplicas none).Add ps).Get key = [] ∨
              ((NewMap dh defaultReplicas none).Add ps).Get key = p.self
            then (none, false)
            else ((HTTPPool.Set dh p ps).httpGetters
              (((NewMap dh defaultReplicas none).Add ps).Get key), true)) ∧
    (HTTPPool.Set dh p ps).PickPeer key =
      some (if ((NewMap dh defaultReplicas none).Add ps).Get key = [] ∨
              ((NewMap dh defaultReplicas none).Add ps).Get key = p.self
            then (none, false)
            else (some ⟨((NewMap dh defaultReplicas none).Add ps).Get key ++ p.basePath⟩,
              true)) ∧
    (HTTPPool.Set dh p []).PickPeer key = some (none, false) ∧
    (∀ b : Bool, (HTTPPool.Set dh p ps).PickPeer key
      ≠ some (some ⟨p.self ++ p.basePath⟩, b)) ∧
    (∀ (h : httpGetter) (b : Bool), (HTTPPool.Set dh p ps).httpGetters p.self = some h →
      (HTTPPool.Set dh p ps).PickPeer key ≠ some (some h, b)) := by
  have hpick : (HTTPPool.Set dh p ps).PickPeer key =
      some (if ((NewMap dh defaultReplicas none).Add ps).Get key = [] ∨
              ((NewMap dh defaultReplicas none).Add ps).Get key = p.self
            then (none, false)
            else ((HTTPPool.Set dh p ps).httpGetters
              (((NewMap dh defaultReplicas none).Add ps).Get key), true)) := by
    by_cases h : ((NewMap dh defaultReplicas none).Add ps).Get key = [] ∨
        ((NewMap dh defaultReplicas none).Add ps).Get key = p.self
    · rw [if_pos h]
      have h2 : ¬ (((NewMap dh defaultReplicas none).Add ps).Get key ≠ [] ∧
          ((NewMap dh defaultReplicas none).Add ps).Get key ≠ p.self) := by tauto
      simp only [HTTPPool.PickPeer, HTTPPool.Set, if_neg h2]
    · rw [if_neg h]
      have h2 : ((NewMap dh defaultReplicas none).Add ps).Get key ≠ [] ∧
          ((NewMap dh defaultReplicas none).Add ps).Get key ≠ p.self := by tauto
      simp only [HTTPPool.PickPeer, HTTPPool.Set, if_pos h2]
  have hhandle : (HTTPPool.Set dh p ps).PickPeer key =
      some (if ((NewMap dh defaultReplicas none).Add ps).Get key = [] ∨
              ((NewMap dh defaultReplicas none).Add ps).Get key = p.self
            then (none, false)
            else (some ⟨((NewMap dh defaultReplicas none).Add ps).Get key ++ p.basePath⟩,
              true)) := by
    rw [hpick]
    by_cases h : ((NewMap dh defaultReplicas none).Add ps).Get key = [] ∨
        ((NewMap dh defaultReplicas none).Add ps).Get key = p.self
    · rw [if_pos h, if_pos h]
    · rw [if_neg h, if_neg h, Set_httpGetters]
      have hmem : ((NewMap dh defaultReplicas none).Add ps).Get key ∈ ps := by
        rcases ring_Get dh ps key with h1 | h1
        · exact absurd (Or.inl h1) h
        · exact h1
      rw [if_pos hmem]
  have hown : ∀ b : Bool, (HTTPPool.Set dh p ps).PickPeer key
      ≠ some (some ⟨p.self ++ p.basePath⟩, b) := by
    intro b
    rw [hhandle]
    split
    · simp
    · next h =>
      intro e
      simp only [Option.some.injEq, Prod.mk.injEq, httpGetter.mk.injEq,
        List.append_cancel_right_eq] at e
      exact h (Or.inr e.1)
  refine ⟨hpick, hhandle, rfl, hown, ?_⟩
  intro h b hself
  rw [Set_httpGetters] at hself
  split at hself
  · cases hself
    exact hown b
  · cases hself

/-- C9: after `Set(ps)`, whatever ring and handle map the pool held before, the handle map
has exactly the members of `ps` as keys, each mapped to the handle whose base URL is the
peer followed by the base path; the ring is the new ring (50 replicas, default hash) to
which `ps` were added; the pool's identifier and base path are untouched; the result does
not depend on the ring or handles held before.  Ring and handle map agree: the ring's
positions are exactly the 50 replica positions of the members of `ps`, every position maps
back to a member of `ps`, and every peer that the ring resolves a key to (other than the
empty sentinel) has its handle in the map. -/
theorem Set_rebuilds (dh : Hash) (p : HTTPPool) (ps : List GoString) :
    (∀ k, (HTTPPool.Set dh p ps).httpGetters k
      = if k ∈ ps then some ⟨k ++ p.basePath⟩ else none) ∧
    (HTTPPool.Set dh p ps).peers = some ((NewMap dh defaultReplicas none).Add ps) ∧
    ((HTTPPool.Set dh p ps).self = p.self ∧ (HTTPPool.Set dh p ps).basePath = p.basePath) ∧
    (∀ (ring0 : Option Map) (getters0 : GoString → Option httpGetter),
      HTTPPool.Set dh { p with peers := ring0, httpGetters := getters0 } ps
        = HTTPPool.Set dh p ps) ∧
    (∀ k, k ∈ ((NewMap dh defaultReplicas none).Add ps).keys ↔
      ∃ peer ∈ ps, ∃ i < 50, k = dh (peer ++ Itoa i)) ∧
    (∀ x peer, ((NewMap dh defaultReplicas none).Add ps).hashMap x = some peer →
      (HTTPPool.Set dh p ps).httpGetters peer = some ⟨peer ++ p.basePath⟩) ∧
    (∀ key, ((NewMap dh defaultReplicas none).Add ps).Get key = [] ∨
      (HTTPPool.Set dh p ps).httpGetters (((NewMap dh defaultReplicas none).Add ps).Get key)
        = some ⟨((NewMap dh defaultReplicas none).Add ps).Get key ++ p.basePath⟩) := by
  refine ⟨Set_httpGetters dh p ps, rfl, ⟨rfl, rfl⟩, fun _ _ => rfl,
    ring_keys dh ps, ?_, ?_⟩
  · intro x peer h
    rw [Set_httpGetters, if_pos (ring_hashMap dh ps x peer h)]
  · intro key
    rcases ring_Get dh ps key with h | h
    · exact Or.inl h
    · right
      rw [Set_httpGetters, if_pos h]

/-! ## The client's path through the server's decoding -/

set_option maxRecDepth 100000 in
theorem hex_digits_decode :
    ∀ c : Byte, ishex (upperhex (c >>> 4)) = true ∧ ishex (upperhex (c &&& 15)) = true ∧
      ((unhex (upperhex (c >>> 4)) <<< 4) ||| unhex (upperhex (c &&& 15))) = c := by
  decide

set_option maxRecDepth 100000 in
theorem kept_byte_not_percent : ∀ c : Byte, shouldEscape c = false → c ≠ ch '%' := by
  decide

theorem unescapePath_plain (c : Byte) (t : GoString) (h : c ≠ ch '%') :
    unescapePath (c :: t) = (unescapePath t).map (fun r => c :: r) := by
  conv_lhs => unfold unescapePath
  simp only [h, if_false]

theorem unescapePath_percent (h1 h2 : Byte) (t : GoString) :
    unescapePath (ch '%' :: h1 :: h2 :: t) =
      if ishex h1 = true ∧ ishex h2 = true then
        (unescapePath t).map (fun r => ((unhex h1 <<< 4) ||| unhex h2) :: r)
      else none := by
  conv_lhs => unfold unescapePath
  simp only [if_true]

theorem unescapePath_QueryEscape_cons (c : Byte) (s t : GoString) (h : c ≠ ch ' ') :
    unescapePath (QueryEscape (c :: s) ++ t)
      = (unescapePath (QueryEscape s ++ t)).map (fun r => c :: r) := by
  by_cases he : shouldEscape c = true
  · obtain ⟨h1, h2, h3⟩ := hex_digits_decode c
    rw [QueryEscape, if_neg h, if_pos he, List.cons_append, List.cons_append,
      List.cons_append, unescapePath_percent]
    simp only [h1, h2, h3, and_self, if_true]
  · have he2 : shouldEscape c = false := by simpa using he
    have hp := kept_byte_not_percent c he2
    rw [QueryEscape, if_neg h, if_neg he, List.cons_append, unescapePath_plain c _ hp]

theorem unescapePath_QueryEscape (s t : GoString) (h : ch ' ' ∉ s) :
    unescapePath (QueryEscape s ++ t) = (unescapePath t).map (fun r => s ++ r) := by
  induction s with
  | nil => simp [QueryEscape]
  | cons c s ih =>
    have hc : c ≠ ch ' ' := fun e => h (by simp [e])
    have hs : ch ' ' ∉ s := fun e => h (by simp [e])
    rw [unescapePath_QueryEscape_cons c s t hc, ih hs]
    cases unescapePath t <;> simp

theorem unescapePath_no_percent (s t : GoString) (h : ch '%' ∉ s) :
    unescapePath (s ++ t) = (unescapePath t).map (fun r => s ++ r) := by
  induction s with
  | nil => simp
  | cons c s ih =>
    have hc : c ≠ ch '%' := fun e => h (by simp [e])
    have hs : ch '%' ∉ s := fun e => h (by simp [e])
    rw [List.cons_append, unescapePath_plain c _ hc, ih hs]
    cases unescapePath t <;> simp

/-- The request path that the client builds for a group name without `/` and without space
and a key without space, under a base path without `%`, is decoded by the server to
`basePath + name + "/" + key`, which `ServeHTTP` splits into exactly `name` and `key`. -/
theorem client_path_roundtrip (base name key : GoString) (hbase : ch '%' ∉ base)
    (hslash : ch '/' ∉ name) (hname : ch ' ' ∉ name) (hkey : ch ' ' ∉ key) :
    unescapePath (base ++ QueryEscape name ++ str "/" ++ QueryEscape key)
      = some (base ++ name ++ ch '/' :: key) ∧
    HasPrefix (base ++ name ++ ch '/' :: key) base = true ∧
    SplitN ((base ++ name ++ ch '/' :: key).drop base.length) (ch '/') 2 = [name, key] := by
  refine ⟨?_, ?_, ?_⟩
  · have h1 : unescapePath (QueryEscape key) = some key := by
      have := unescapePath_QueryEscape key [] hkey
      simpa [unescapePath] using this
    have h2 : unescapePath (str "/" ++ QueryEscape key) = some (ch '/' :: key) := by
      have : str "/" = [ch '/'] := by decide
      rw [this, List.singleton_append, unescapePath_plain _ _ (by decide), h1]
      rfl
    rw [List.append_assoc, List.append_assoc, unescapePath_no_percent base _ hbase,
      unescapePath_QueryEscape name _ hname, h2]
    simp
  · rw [List.append_assoc]
    exact HasPrefix_append _ _
  · rw [List.append_assoc, List.drop_left]
    exact SplitN_two_cut _ name key hslash

/-- The round trip at the group `scores` and the key `tom/2024+x`. -/
theorem client_path_roundtrip_witness :
    unescapePath (defaultBasePath ++ QueryEscape (str "scores") ++ str "/"
        ++ QueryEscape (str "tom/2024+x"))
      = some (defaultBasePath ++ str "scores" ++ ch '/' :: str "tom/2024+x") ∧
    HasPrefix (defaultBasePath ++ str "scores" ++ ch '/' :: str "tom/2024+x")
      defaultBasePath = true ∧
    SplitN ((defaultBasePath ++ str "scores" ++ ch '/' :: str "tom/2024+x").drop
      defaultBasePath.length) (ch '/') 2 = [str "scores", str "tom/2024+x"] :=
  client_path_roundtrip defaultBasePath (str "scores") (str "tom/2024+x") (by decide)
    (by decide) (by decide) (by decide)

end GeeCache
